import Mathlib

/-!
# Filesystem analyser: accumulation engine of `pkg/filesystem/filesystem.go`

A shallow embedding of the two commands `Space` and `VolumeScanner`, of the
per-entry step `process`, of `getDiskUsage`, and of the library routines they
call (`strconv`, `filepath.Walk`, `filepath.Dir`), followed by theorems about
them.

Conventions.
* `int64` values are `Int`, `uint64` values are `Nat`; every operation that
  can overflow in Go is followed by an explicit wrap (`wrap64`, `% 2^64`).
* A Go map is a function from keys to `Option` values.
* A Go run-time failure of the process (nil dereference, `MustCompilePOSIX`
  on a bad pattern) is the `Except.error` branch of a result.
* The effects of a command (stat, walk, statfs, printing a table) are
  recorded in an event list.
-/

namespace Analyser

/-! ## `strconv` -/

/-- Largest `int64`. -/
def maxInt64 : Int := 9223372036854775807

/-- Smallest `int64`. -/
def minInt64 : Int := -9223372036854775808

/-- Largest `uint64`. -/
def maxUint64 : Nat := 18446744073709551615

/-- Two's complement wrap of an integer into the `int64` range: the result of
an `int64` addition in Go. -/
def wrap64 (x : Int) : Int := (x + 9223372036854775808) % 18446744073709551616 - 9223372036854775808

/-- Conversion `uint64(x)` of an `int64`. -/
def toUint64 (x : Int) : Nat := (x % 18446744073709551616).toNat

/-- The ASCII digit of `d` (for `d < 10`). -/
def digitChar (d : Nat) : Char := Char.ofNat (48 + d)

/-- Value of a decimal digit character, `none` for any other character. With
base 10 `strconv.ParseUint` accepts no other character. -/
def digitVal (c : Char) : Option Nat :=
  if 48 ≤ c.toNat ∧ c.toNat ≤ 57 then some (c.toNat - 48) else none

/-- Digit generation loop of `strconv.FormatUint` in base 10: digits are
produced from the least significant one and put in front of `acc`. The fuel
bounds the number of digits. -/
def formatBits : Nat → Nat → List Char → List Char
  | 0, _, acc => acc
  | fuel + 1, n, acc =>
    if n < 10 then digitChar n :: acc
    else formatBits fuel (n / 10) (digitChar (n % 10) :: acc)

/-- Decimal digits of a `uint64`: it has at most 20 of them. -/
def formatUint (n : Nat) : List Char := formatBits 20 n []

/-- Go `strconv.FormatInt(i, 10)`. -/
def FormatInt (i : Int) : String :=
  if i < 0 then String.mk ('-' :: formatUint (-i).toNat) else String.mk (formatUint i.toNat)

/-- Errors of `strconv.ParseUint` and `strconv.ParseInt`. -/
inductive NumError where
  | badDigits
  | outOfRange
  deriving DecidableEq, Repr

/-- Digit loop of `strconv.ParseUint(s, 10, 64)`: `n` is the value read so
far. A character that is no digit ends the loop with value 0, an overflow
ends it with the largest `uint64`. -/
def parseUintLoop (n : Nat) : List Char → Nat × Option NumError
  | [] => (n, none)
  | c :: cs =>
    match digitVal c with
    | none => (0, some NumError.badDigits)
    | some d =>
      if n ≥ 1844674407370955162 then (maxUint64, some NumError.outOfRange)
      else if n * 10 + d > maxUint64 then (maxUint64, some NumError.outOfRange)
      else parseUintLoop (n * 10 + d) cs

/-- Go `strconv.ParseUint(s, 10, 64)`, value and error. -/
def ParseUintE (s : String) : Nat × Option NumError :=
  match s.data with
  | [] => (0, some NumError.badDigits)
  | cs => parseUintLoop 0 cs

/-- Go `strconv.ParseUint(s, 10, 64)` where the caller drops the error. -/
def ParseUint (s : String) : Nat := (ParseUintE s).1

/-- Go `strconv.ParseInt(s, 10, 64)`, value and error: an optional sign, then
`ParseUint` on the rest, then the range check against `1 << 63`. -/
def ParseIntE (s : String) : Int × Option NumError :=
  match s.data with
  | [] => (0, some NumError.badDigits)
  | c :: cs =>
    let neg := c == '-'
    let rest := if c == '+' ∨ c == '-' then cs else c :: cs
    match ParseUintE (String.mk rest) with
    | (_, some NumError.badDigits) => (0, some NumError.badDigits)
    | (un, _) =>
      if !neg ∧ un ≥ 9223372036854775808 then (maxInt64, some NumError.outOfRange)
      else if neg ∧ un > 9223372036854775808 then (minInt64, some NumError.outOfRange)
      else (if neg then -(un : Int) else (un : Int), none)

/-- Go `strconv.ParseInt(s, 10, 64)` where the caller drops the error. -/
def ParseInt (s : String) : Int := (ParseIntE s).1

/-! ## `float64` -/

/-- A `float64` value: not-a-number, an infinity with its sign, or a finite
value. Finite values are rationals; the rounding to the nearest `float64`
after each operation is the parameter `rnd` of the operations below. Signed
zeros and overflow to infinity are left out: every operand in this program is
a converted `uint64` or the constant 100. -/
inductive F64 where
  | nan
  | inf (neg : Bool)
  | fin (q : ℚ)
  deriving DecidableEq

/-- Conversion `float64(n)` of a `uint64`. -/
def F64.ofUint64 (rnd : ℚ → ℚ) (n : Nat) : F64 := F64.fin (rnd n)

/-- IEEE 754 division: `0/0` is not-a-number, `x/0` is an infinity. -/
def F64.div (rnd : ℚ → ℚ) : F64 → F64 → F64
  | F64.fin a, F64.fin b =>
    if b = 0 then (if a = 0 then F64.nan else F64.inf (decide (a < 0)))
    else F64.fin (rnd (a / b))
  | F64.fin _, F64.inf _ => F64.fin 0
  | F64.inf s, F64.fin b => F64.inf (xor s (decide (b < 0)))
  | _, _ => F64.nan

/-- IEEE 754 multiplication. -/
def F64.mul (rnd : ℚ → ℚ) : F64 → F64 → F64
  | F64.fin a, F64.fin b => F64.fin (rnd (a * b))
  | F64.inf s, F64.fin b => if b = 0 then F64.nan else F64.inf (xor s (decide (b < 0)))
  | F64.fin b, F64.inf s => if b = 0 then F64.nan else F64.inf (xor s (decide (b < 0)))
  | F64.inf s, F64.inf t => F64.inf (xor s t)
  | _, _ => F64.nan

/-- The finite values between 0 and 100. -/
def F64.inPercentRange : F64 → Prop
  | F64.fin q => 0 ≤ q ∧ q ≤ 100
  | _ => False

/-- What the theorems use of rounding to the nearest `float64`: it is
monotone and exact at 0, 1 and 100. -/
structure IsRounding (rnd : ℚ → ℚ) : Prop where
  mono : ∀ x y : ℚ, x ≤ y → rnd x ≤ rnd y
  zero : rnd 0 = 0
  one : rnd 1 = 1
  hundred : rnd 100 = 100

/-! ## Data model -/

/-- A Go `error` value, by its message. -/
abbrev Error := String

/-- Run-time failures that end the process. -/
inductive Panic where
  | nilDereference
  | regexpCompile
  deriving DecidableEq, Repr

/-- What the program reads of an `os.FileInfo`. -/
structure FileInfo where
  name : String
  size : Int
  isDir : Bool
  deriving DecidableEq, Repr

/-- One call of `filepath.Walk` to its walk function: the path, the file
info (nil when `Lstat` failed) and the error met at that entry. -/
structure WalkCall where
  path : String
  info : Option FileInfo
  err : Option Error
  deriving DecidableEq, Repr

/-- The package-level `db`, a `map[string]string`. -/
abbrev DB := String → Option String

/-- The map as `make` returns it. -/
def DB.empty : DB := fun _ => none

/-- Assignment `db[k] = v`. -/
def DB.set (db : DB) (k v : String) : DB := fun k' => if k' = k then some v else db k'

/-- Lookup `db[k]`: the empty string for a missing key. -/
def DB.get (db : DB) (k : String) : String := (db k).getD ""

def largeFilenameKey : String := "LARGE_FILE_NAME"

def largeSizeKey : String := "LARGE_SIZE"

def totalSizeKey : String := "TOTAL_SIZE"

def filterKey : String := "filter"

structure SpaceInputs where
  FilesystemPath : String
  RootFilesystem : String
  Filter : String

structure DirStats where
  Path : String
  TotalSize : Int
  deriving DecidableEq, Repr

/-- The result of `unix.Statfs` as far as it is read: `Blocks` and `Bfree`
are `uint64`, `Bsize` is `int64`. -/
structure Statfs_t where
  Blocks : Nat
  Bfree : Nat
  Bsize : Int

structure disk where
  all : Nat
  free : Nat
  used : Nat
  usedPer : F64
  deriving DecidableEq

/-- A cell of a report row. A formatted number is kept as the number and the
formatter applied to it: `byteSize n` is `bytefmt.ByteSize(n)`, `float x` is
`strconv.FormatFloat(x, 'f', 6, 64)` and `minutes x` is that string followed
by `" min(s)"`. -/
inductive Cell where
  | text (s : String)
  | byteSize (n : Nat)
  | float (x : F64)
  | minutes (x : F64)
  deriving DecidableEq

/-- The table `views.Print` renders to standard output. -/
structure Table where
  header : List String
  rows : List (List Cell)
  deriving DecidableEq

/-- Effects of a command, in program order. -/
inductive Event where
  | stat (path : String)
  | walk (root : String)
  | statfs (path : String)
  | print (t : Table)
  deriving DecidableEq

/-- The filesystem and clock a command runs against. `walkCalls root` is the
sequence of calls `filepath.Walk(root, fn)` makes to `fn` as long as `fn`
returns nil. -/
structure World where
  stat : String → Bool
  walkCalls : String → List WalkCall
  statfs : String → Option Statfs_t
  elapsedMin : F64

/-- What a command leaves behind: its effects and its return value. -/
structure Outcome where
  events : List Event
  err : Option Error
  deriving DecidableEq

/-! ## Library routines -/

/-- Go `filepath.Walk` over a given sequence of calls: the walk function is
called entry by entry and the first non-nil return value ends the walk and is
returned. (`filepath.SkipDir` is never returned by the walk functions of this
program unless it is the entry error itself.) -/
def Walk {σ : Type} (fn : σ → String → Option FileInfo → Option Error → Except Panic (σ × Option Error)) :
    List WalkCall → σ → Except Panic (σ × Option Error)
  | [], s => Except.ok (s, none)
  | c :: cs, s =>
    match fn s c.path c.info c.err with
    | Except.error p => Except.error p
    | Except.ok (s1, some e) => Except.ok (s1, some e)
    | Except.ok (s1, none) => Walk fn cs s1

/-- The elements of a path between its separators; two separators in a row
and a separator at either end give empty elements. -/
def splitSlash : List Char → List (List Char)
  | [] => [[]]
  | c :: cs =>
    match splitSlash cs with
    | [] => [[]]
    | e :: es => if c = '/' then [] :: e :: es else (c :: e) :: es

/-- The element loop of `filepath.Clean`: `out` holds the elements written so
far, last one first. Empty elements and `.` are dropped; `..` removes the
last element written if there is one that is no `..` itself, is dropped at
the root of a rooted path, and is written otherwise. -/
def cleanLoop (rooted : Bool) : List (List Char) → List (List Char) → List (List Char)
  | [], out => out
  | e :: es, out =>
    if e = [] ∨ e = ['.'] then cleanLoop rooted es out
    else if e = ['.', '.'] then
      match out with
      | top :: below =>
        if top = ['.', '.'] then cleanLoop rooted es (e :: out)
        else cleanLoop rooted es below
      | [] => if rooted then cleanLoop rooted es [] else cleanLoop rooted es [e]
    else cleanLoop rooted es (e :: out)

/-- Go `filepath.Clean` on Unix: the shortest equivalent path, `"."` for
the empty result of an unrooted path. -/
def filepathClean (path : List Char) : String :=
  let rooted := path.head? = some '/'
  let out := (cleanLoop rooted (splitSlash path) []).reverse
  let body := List.intercalate ['/'] out
  if rooted then String.mk ('/' :: body)
  else if body = [] then "." else String.mk body

/-- Go `filepath.Dir` on Unix: the path up to and including its last
separator, cleaned. -/
def filepathDir (path : String) : String :=
  filepathClean (path.data.reverse.dropWhile (fun c => c != '/')).reverse

/-- Function `views.Print`: the table with its fixed header and one row per element
of `data`. -/
def views.Print (data : List (List Cell)) : Event :=
  Event.print { header := ["Metric", "Value", "Percentage"], rows := data }

/-! ## `pkg/filesystem` -/

/-- The walk function of `Space`. `compilePOSIX` is `regexp.CompilePOSIX`
with the resulting matcher on strings; `MustCompilePOSIX` fails where it
returns `none`. The first statement reads `info.IsDir()`, whatever `err` is. -/
def process (compilePOSIX : String → Option (String → Bool)) (db : DB)
    (filesystemPath : String) (info : Option FileInfo) (err : Option Error) :
    Except Panic (DB × Option Error) :=
  match info with
  | none => Except.error Panic.nilDereference
  | some info =>
    let isDir := info.isDir
    let filter := db.get filterKey
    if isDir then Except.ok (db, err)
    else
      let matched : Except Panic Bool :=
        if filter ≠ "" then
          match compilePOSIX filter with
          | none => Except.error Panic.regexpCompile
          | some re => Except.ok (re info.name)
        else Except.ok true
      match matched with
      | Except.error p => Except.error p
      | Except.ok false => Except.ok (db, err)
      | Except.ok true =>
        let size := info.size
        let largeSizeFromCache := (db largeSizeKey).getD "0"
        let totalSizeFromCache := (db totalSizeKey).getD "0"
        let totalSize := ParseInt totalSizeFromCache
        let largeSize := ParseInt largeSizeFromCache
        if err ≠ none then Except.ok (db, err)
        else
          let db1 := if largeSize < size then
              (db.set largeSizeKey (FormatInt size)).set largeFilenameKey filesystemPath
            else db
          let totalSize := wrap64 (size + totalSize)
          Except.ok (db1.set totalSizeKey (FormatInt totalSize), err)

/-- Function `verify`: the path exists. -/
def verify (w : World) (pathToVerify : String) : Bool := w.stat pathToVerify

/-- Function `getDiskUsage`: the zero snapshot when the probe fails, else the byte
counts in `uint64` arithmetic and the percentage in `float64` arithmetic. -/
def getDiskUsage (rnd : ℚ → ℚ) (statfs : String → Option Statfs_t) (rootPath : String) : disk :=
  match statfs rootPath with
  | none => { all := 0, free := 0, used := 0, usedPer := F64.fin 0 }
  | some fs =>
    let all := (fs.Blocks * toUint64 fs.Bsize) % 18446744073709551616
    let free := (fs.Bfree * toUint64 fs.Bsize) % 18446744073709551616
    let used := (all + 18446744073709551616 - free) % 18446744073709551616
    let usedPer := F64.mul rnd (F64.div rnd (F64.ofUint64 rnd used) (F64.ofUint64 rnd all)) (F64.fin 100)
    { all := all, free := free, used := used, usedPer := usedPer }

/-- The denominator `Space` divides the largest size by: `totalSize` after
the statement `if root.all > 0`. -/
def spaceDenominator (root : disk) (totalSize : Nat) : Nat :=
  if root.all > 0 then root.all else totalSize

/-- The value `largeFileSizePercentage` of `Space`. -/
def largeFileSizePercentage (rnd : ℚ → ℚ) (largeSize denominator : Nat) : F64 :=
  F64.mul rnd (F64.div rnd (F64.ofUint64 rnd largeSize) (F64.ofUint64 rnd denominator)) (F64.fin 100)

/-- The rows `Space` builds from the store and the disk snapshot. -/
def spaceRows (rnd : ℚ → ℚ) (db : DB) (root : disk) (elapsedInMin : F64) : List (List Cell) :=
  let largeFileProcessed := db.get largeFilenameKey
  let largeSizeProcessed := db.get largeSizeKey
  let totalSizeProcessed := db.get totalSizeKey
  let largeSize := ParseUint largeSizeProcessed
  let totalSize := ParseUint totalSizeProcessed
  let totalSize := spaceDenominator root totalSize
  [ [Cell.text "LARGE_FILE_NAME", Cell.text largeFileProcessed, Cell.text "NA"],
    [Cell.text "LARGE_FILE_SIZE", Cell.byteSize largeSize,
      Cell.float (largeFileSizePercentage rnd largeSize totalSize)],
    [Cell.text "DISK_TOTAL_SIZE", Cell.byteSize root.all, Cell.text "NA"],
    [Cell.text "DISK_USED_PERCENTAGE", Cell.text "--", Cell.float root.usedPer],
    [Cell.text "PROCESSING_TIME", Cell.minutes elapsedInMin, Cell.text "NA"] ]

/-- Command `Space`, from the store `db` the process holds when it is called to the
store it leaves and its outcome. -/
def Space (compilePOSIX : String → Option (String → Bool)) (rnd : ℚ → ℚ) (w : World)
    (db : DB) (inputs : SpaceInputs) : Except Panic (DB × Outcome) :=
  let filesystemPath := inputs.FilesystemPath
  let db := db.set filterKey inputs.Filter
  if !verify w filesystemPath then
    Except.ok (db, { events := [Event.stat filesystemPath], err := some "Path is not abosule path" })
  else
    match Walk (process compilePOSIX) (w.walkCalls filesystemPath) db with
    | Except.error p => Except.error p
    | Except.ok (db, err) =>
      let root := getDiskUsage rnd w.statfs "/"
      let before := [Event.stat filesystemPath, Event.walk filesystemPath, Event.statfs "/"]
      if err ≠ none then Except.ok (db, { events := before, err := err })
      else
        let data := spaceRows rnd db root w.elapsedMin
        Except.ok (db, { events := before ++ [views.Print data], err := err })

/-- The variables the walk function of `VolumeScanner` closes over. -/
structure VolumeState where
  result : String → Option DirStats
  largestDir : String
  largestSize : Int
  totalSize : Int
  cwd : String

/-- The variables of `VolumeScanner` before the walk. -/
def VolumeState.init : VolumeState :=
  { result := fun _ => none, largestDir := "", largestSize := 0, totalSize := 0, cwd := "" }

/-- The walk function of `VolumeScanner`. The statistics read from `result`
are a copy: the sum is compared and dropped, `result` is written for
directories only. -/
def volumeWalkFn (st : VolumeState) (path : String) (info : Option FileInfo)
    (err : Option Error) : Except Panic (VolumeState × Option Error) :=
  if err ≠ none then Except.ok (st, err)
  else
    match info with
    | none => Except.error Panic.nilDereference
    | some info =>
      if info.isDir then
        let cwd := path
        Except.ok ({ st with
          cwd := cwd,
          result := fun k => if k = cwd then some { Path := cwd, TotalSize := 0 } else st.result k },
          err)
      else
        let dir := filepathDir path
        let dirStat := (st.result dir).getD { Path := "", TotalSize := 0 }
        let dirStat := { dirStat with TotalSize := wrap64 (dirStat.TotalSize + info.size) }
        let st := { st with totalSize := wrap64 (st.totalSize + info.size) }
        let st := if dirStat.TotalSize > st.largestSize then
            { st with largestSize := dirStat.TotalSize, largestDir := dir }
          else st
        Except.ok (st, err)

/-- The rows `VolumeScanner` builds after the walk. -/
def volumeRows (st : VolumeState) : List (List Cell) :=
  [ [Cell.text "TOTAL_SIZE", Cell.byteSize (toUint64 st.totalSize), Cell.text ""],
    [Cell.text "LARGEST_DIR", Cell.text st.largestDir, Cell.text ""],
    [Cell.text "LARGEST_DIR_SIZE", Cell.byteSize (toUint64 st.largestSize), Cell.text ""] ]

/-- Command `VolumeScanner`: the walk, then the report, then the error of the walk. -/
def VolumeScanner (w : World) (pathToScan : String) : Except Panic Outcome :=
  match Walk volumeWalkFn (w.walkCalls pathToScan) VolumeState.init with
  | Except.error p => Except.error p
  | Except.ok (st, err) =>
    Except.ok { events := [Event.walk pathToScan, views.Print (volumeRows st)], err := err }

/-! ## Sample inputs -/

/-- A regular file entry without error. -/
def fileCall (path name : String) (size : Int) : WalkCall :=
  { path := path, info := some { name := name, size := size, isDir := false }, err := none }

/-- A directory entry without error. -/
def dirCall (path name : String) : WalkCall :=
  { path := path, info := some { name := name, size := 4096, isDir := true }, err := none }

/-- The tree of the scenarios, in the lexical order of `filepath.Walk`:
`/a/x` (10 bytes), `/a/b/y` (30 bytes), `/a/b/z` (5 bytes). -/
def scenarioTree : List WalkCall :=
  [ dirCall "/a" "a", dirCall "/a/b" "b", fileCall "/a/b/y" "y" 30, fileCall "/a/b/z" "z" 5,
    fileCall "/a/x" "x" 10 ]

/-- A world whose every walk yields `calls`, every path exists or not as
`pathExists` says, and whose disk probe answers `fs`. -/
def worldOf (pathExists : Bool) (calls : List WalkCall) (fs : Option Statfs_t) : World :=
  { stat := fun _ => pathExists, walkCalls := fun _ => calls, statfs := fun _ => fs,
    elapsedMin := F64.fin 0 }

/-- A compiler for the patterns `^literal$` with an alphanumeric literal,
which match the literal and nothing else; it rejects every other pattern. It
stands for `regexp.CompilePOSIX` in the examples. -/
def anchoredLiteral (filter : String) : Option (String → Bool) :=
  match filter.data with
  | '^' :: rest =>
    if rest.getLast? = some '$' ∧ rest.dropLast.all Char.isAlphanum = true then
      some (fun name => decide (name.data = rest.dropLast))
    else none
  | _ => none

/-! ## Reference definitions -/

/-- Value of a digit string read after the value `n`, most significant digit
first. -/
def decValue (n : Nat) (cs : List Char) : Nat :=
  cs.foldl (fun a c => a * 10 + (digitVal c).getD 0) n

/-- A value of the `int64` range. -/
def inInt64 (x : Int) : Prop := minInt64 ≤ x ∧ x ≤ maxInt64

instance (x : Int) : Decidable (inInt64 x) := by unfold inInt64; infer_instance

/-- An entry as a walk that meets no error passes it: file info present, no
error, size an `int64`. -/
def regularCall (c : WalkCall) : Bool :=
  c.err.isNone && (match c.info with
    | some fi => decide (inInt64 fi.size)
    | none => false)

/-- The files a space walk counts, by path and size, in walk order: the
entries that are no directory and whose base name `keep` accepts. -/
def countedFiles (keep : String → Bool) (calls : List WalkCall) : List (String × Int) :=
  calls.filterMap fun c =>
    match c.info with
    | some fi => if !fi.isDir && keep fi.name then some (c.path, fi.size) else none
    | none => none

/-- Arithmetic sum of the sizes. -/
def sumSizes (l : List (String × Int)) : Int := (l.map Prod.snd).sum

/-- Largest of the sizes and 0. -/
def maxSize (l : List (String × Int)) : Int := l.foldr (fun p m => max p.2 m) 0

/-- The largest file of a list of counted files: the first one, in list
order, whose size is the largest size, provided that size is positive. -/
def largestCounted (l : List (String × Int)) : Option (String × Int) :=
  if 0 < maxSize l then l.find? (fun p => decide (p.2 = maxSize l)) else none

/-- How `process` decides on a file name under `filter`: everything passes
the empty filter, a filter that compiles passes what its matcher accepts. -/
def Decides (compilePOSIX : String → Option (String → Bool)) (filter : String)
    (keep : String → Bool) : Prop :=
  (filter = "" ∧ keep = fun _ => true) ∨ (filter ≠ "" ∧ compilePOSIX filter = some keep)

/-- The aggregates of a space walk as numbers: the largest file so far and
the total so far, each absent until first written. -/
structure Agg where
  large : Option (String × Int)
  total : Option Int

/-- No aggregate written yet. -/
def Agg.init : Agg := { large := none, total := none }

/-- The effect of one counted file on the aggregates. -/
def Agg.step (a : Agg) (p : String × Int) : Agg :=
  { large := if (a.large.map Prod.snd).getD 0 < p.2 then some p else a.large,
    total := some (wrap64 (p.2 + a.total.getD 0)) }

/-- The store `db` holds the aggregates `a` in its decimal encoding. -/
def Holds (db : DB) (a : Agg) : Prop :=
  db largeSizeKey = a.large.map (fun p => FormatInt p.2) ∧
  db largeFilenameKey = a.large.map Prod.fst ∧
  db totalSizeKey = a.total.map FormatInt ∧
  (∀ p, a.large = some p → inInt64 p.2) ∧
  (∀ t, a.total = some t → inInt64 t)

/-- The store and the return value a call of `Space` leaves, without its
effects. -/
def storeAndError (r : Except Panic (DB × Outcome)) : Except Panic (DB × Option Error) :=
  match r with
  | Except.ok (db, o) => Except.ok (db, o.err)
  | Except.error p => Except.error p

/-- The three aggregates a call of `Space` leaves in the store, read as
`Space` reads them: `TOTAL_SIZE`, `LARGE_SIZE`, `LARGE_FILE_NAME`. -/
def aggregates (r : Except Panic (DB × Outcome)) : Option (String × String × String) :=
  match r with
  | Except.ok (db, _) => some (db.get totalSizeKey, db.get largeSizeKey, db.get largeFilenameKey)
  | Except.error _ => none

/-- The walk of a directory `/a` that holds the file `x` of 10 bytes. -/
def treeA : List WalkCall := [dirCall "/a" "a", fileCall "/a/x" "x" 10]

/-- The walk of a directory `/b` that holds the file `y` of 5 bytes. -/
def treeB : List WalkCall := [dirCall "/b" "b", fileCall "/b/y" "y" 5]

/-- The largest file as the specification words it: the first counted file,
in walk order, whose size is the maximum of the counted sizes. -/
def claimedLargest (l : List (String × Int)) : Option (String × Int) :=
  l.find? (fun p => decide (∀ q ∈ l, q.2 ≤ p.2))

/-- Sum of the sizes of the files whose immediate parent is the directory
`d`, as the specification defines `perDirectorySize[d]`. -/
def dirSum (calls : List WalkCall) (d : String) : Int :=
  ((calls.filterMap fun c =>
    match c.info with
    | some fi => if !fi.isDir && decide (filepathDir c.path = d) then some fi.size else none
    | none => none)).sum

/-- A tree with an unreadable directory, in the lexical order of
`filepath.Walk`: the file `/a/b` (10 bytes), then the directory `/a/secret`,
which is passed with its file info and the error of reading it and ends the
walk. -/
def unreadableTree : List WalkCall :=
  [ dirCall "/a" "a", fileCall "/a/b" "b" 10,
    { path := "/a/secret", info := some { name := "secret", size := 4096, isDir := true },
      err := some "open /a/secret: permission denied" } ]

/-- The single call `filepath.Walk` makes for a root that does not exist:
`Lstat` failed, there is no file info. -/
def missingRoot : List WalkCall :=
  [ { path := "/nonexistent", info := none,
      err := some "lstat /nonexistent: no such file or directory" } ]

/-! ## `strconv`: parsing what was formatted -/

theorem digitVal_digitChar (d : Nat) (h : d < 10) : digitVal (digitChar d) = some d := by
  interval_cases d <;> rfl

theorem decValue_ge (cs : List Char) (n : Nat) : n ≤ decValue n cs := by
  induction cs generalizing n with
  | nil => simp [decValue]
  | cons c cs ih =>
    have h := ih (n * 10 + (digitVal c).getD 0)
    simp only [decValue, List.foldl_cons] at h ⊢
    omega

theorem decValue_append (xs ys : List Char) (n : Nat) :
    decValue n (xs ++ ys) = decValue (decValue n xs) ys := by
  simp [decValue, List.foldl_append]

/-- The digit loop of the formatter yields a nonempty run of digits of value
`n` in front of the accumulator. -/
theorem formatBits_digits (fuel : Nat) : ∀ (n : Nat) (acc : List Char), n < 10 ^ fuel →
    0 < fuel → ∃ c pre, formatBits fuel n acc = (c :: pre) ++ acc ∧
      (∀ x ∈ c :: pre, (digitVal x).isSome = true) ∧ decValue 0 (c :: pre) = n := by
  induction fuel with
  | zero => intro n acc _ h0; omega
  | succ fuel ih =>
    intro n acc h _
    by_cases h10 : n < 10
    · refine ⟨digitChar n, [], ?_, ?_, ?_⟩
      · simp [formatBits, h10]
      · intro x hx
        simp only [List.mem_singleton] at hx
        subst hx
        simp [digitVal_digitChar n h10]
      · simp [decValue, digitVal_digitChar n h10]
    · have hlt : n / 10 < 10 ^ fuel := by
        rw [pow_succ] at h
        omega
      have hfuel : 0 < fuel := by
        rcases Nat.eq_zero_or_pos fuel with h0 | h0
        · subst h0
          simp at hlt
          omega
        · exact h0
      obtain ⟨c, pre, hf, hd, hv⟩ := ih (n / 10) (digitChar (n % 10) :: acc) hlt hfuel
      have hm : n % 10 < 10 := Nat.mod_lt _ (by decide)
      refine ⟨c, pre ++ [digitChar (n % 10)], ?_, ?_, ?_⟩
      · simp [formatBits, h10, hf]
      · intro x hx
        rw [← List.cons_append, List.mem_append] at hx
        rcases hx with hx | hx
        · exact hd x hx
        · simp only [List.mem_singleton] at hx
          subst hx
          simp [digitVal_digitChar _ hm]
      · rw [← List.cons_append, decValue_append, hv]
        simp [decValue, digitVal_digitChar _ hm]
        omega

theorem formatUint_digits (n : Nat) (h : n ≤ maxUint64) :
    ∃ c pre, formatUint n = c :: pre ∧
      (∀ x ∈ c :: pre, (digitVal x).isSome = true) ∧ decValue 0 (c :: pre) = n := by
  have hlt : n < 10 ^ 20 := by
    have : maxUint64 < 10 ^ 20 := by decide
    omega
  obtain ⟨c, pre, hf, hd, hv⟩ := formatBits_digits 20 n [] hlt (by decide)
  exact ⟨c, pre, by simpa [formatUint] using hf, hd, hv⟩

theorem parseUintLoop_digits (cs : List Char) : ∀ n : Nat,
    (∀ x ∈ cs, (digitVal x).isSome = true) → decValue n cs ≤ maxUint64 →
    parseUintLoop n cs = (decValue n cs, none) := by
  induction cs with
  | nil => intro n _ _; simp [parseUintLoop, decValue]
  | cons c cs ih =>
    intro n hd hv
    obtain ⟨d, hc⟩ := Option.isSome_iff_exists.mp (hd c (List.mem_cons_self _ _))
    have hstep : decValue n (c :: cs) = decValue (n * 10 + d) cs := by
      simp [decValue, hc]
    rw [hstep] at hv ⊢
    have hge := decValue_ge cs (n * 10 + d)
    have hmax : maxUint64 = 18446744073709551615 := rfl
    have h1 : ¬ n ≥ 1844674407370955162 := by omega
    have h2 : ¬ n * 10 + d > maxUint64 := by omega
    rw [parseUintLoop]
    simp only [hc, h1, h2, if_false]
    exact ih _ (fun x hx => hd x (List.mem_cons_of_mem _ hx)) hv

theorem ParseUintE_formatUint (n : Nat) (h : n ≤ maxUint64) :
    ParseUintE (String.mk (formatUint n)) = (n, none) := by
  obtain ⟨c, pre, hf, hd, hv⟩ := formatUint_digits n h
  have := parseUintLoop_digits (c :: pre) 0 hd (by rw [hv]; exact h)
  simp only [ParseUintE, hf]
  rw [this, hv]

theorem digit_not_sign (c : Char) (h : (digitVal c).isSome = true) :
    (c == '+') = false ∧ (c == '-') = false := by
  have h48 : 48 ≤ c.toNat := by
    unfold digitVal at h
    by_contra hn
    simp [hn] at h
  constructor
  · apply beq_false_of_ne
    intro he
    subst he
    revert h48
    decide
  · apply beq_false_of_ne
    intro he
    subst he
    revert h48
    decide

theorem ParseInt_FormatInt (i : Int) (h : inInt64 i) : ParseInt (FormatInt i) = i := by
  obtain ⟨hlo, hhi⟩ := h
  have hmin : minInt64 = -9223372036854775808 := rfl
  have hmax : maxInt64 = 9223372036854775807 := rfl
  have hu : maxUint64 = 18446744073709551615 := rfl
  by_cases hneg : i < 0
  · have hn : (-i).toNat ≤ maxUint64 := by omega
    have hp := ParseUintE_formatUint (-i).toNat hn
    have hle : ¬ ((-i).toNat > 9223372036854775808) := by omega
    simp only [ParseInt, ParseIntE, FormatInt, hneg, if_true]
    simp [hp, hle]
    omega
  · have hn : i.toNat ≤ maxUint64 := by omega
    obtain ⟨c, pre, hf, hd, hv⟩ := formatUint_digits i.toNat hn
    have hp := ParseUintE_formatUint i.toNat hn
    rw [hf] at hp
    obtain ⟨hplus, hminus⟩ := digit_not_sign c (hd c (List.mem_cons_self _ _))
    have hlt : ¬ (i.toNat ≥ 9223372036854775808) := by omega
    simp only [ParseInt, ParseIntE, FormatInt, hneg, if_false, hf]
    simp [hplus, hminus, hp, hlt]
    omega

theorem ParseUint_FormatInt (i : Int) (h0 : 0 ≤ i) (h : i ≤ maxInt64) :
    (ParseUint (FormatInt i) : Int) = i := by
  have hmax : maxInt64 = 9223372036854775807 := rfl
  have hu : maxUint64 = 18446744073709551615 := rfl
  have hn : i.toNat ≤ maxUint64 := by omega
  have hp := ParseUintE_formatUint i.toNat hn
  have hneg : ¬ i < 0 := by omega
  simp only [ParseUint, FormatInt, hneg, if_false, hp]
  omega

/-! ## The per-entry step of the space walk -/

theorem wrap64_inInt64 (x : Int) : inInt64 (wrap64 x) := by
  unfold inInt64 wrap64 minInt64 maxInt64
  omega

theorem wrap64_of_inInt64 (x : Int) (h : inInt64 x) : wrap64 x = x := by
  unfold inInt64 minInt64 maxInt64 at h
  unfold wrap64
  omega

theorem DB_set_same (db : DB) (k v : String) : (db.set k v) k = some v := by
  simp [DB.set]

theorem DB_set_other (db : DB) (k v k' : String) (h : k' ≠ k) : (db.set k v) k' = db k' := by
  simp [DB.set, h]

/-- A directory, or a file the matcher rejects, leaves the store as it is
and hands the entry error back. -/
theorem process_skips (cp : String → Option (String → Bool)) (filter : String)
    (keep : String → Bool) (hD : Decides cp filter keep) (db : DB) (path : String)
    (fi : FileInfo) (err : Option Error) (hf : db.get filterKey = filter)
    (hskip : fi.isDir = true ∨ keep fi.name = false) :
    process cp db path (some fi) err = Except.ok (db, err) := by
  unfold process
  by_cases hdir : fi.isDir = true
  · simp [hdir]
  · have hk : keep fi.name = false := by
      rcases hskip with h | h
      · exact absurd h hdir
      · exact h
    rcases hD with ⟨_, hkeep⟩ | ⟨hne, hcp⟩
    · rw [hkeep] at hk
      simp at hk
    · simp [hdir, hf, hne, hcp, hk]

theorem Holds_parse_large (db : DB) (a : Agg) (h : Holds db a) :
    ParseInt ((db largeSizeKey).getD "0") = (a.large.map Prod.snd).getD 0 := by
  obtain ⟨h1, _, _, h4, _⟩ := h
  rw [h1]
  cases hl : a.large with
  | none => simp only [Option.map_none', Option.getD_none]; decide
  | some p =>
    simp only [Option.map_some', Option.getD_some]
    exact ParseInt_FormatInt p.2 (h4 p hl)

theorem Holds_parse_total (db : DB) (a : Agg) (h : Holds db a) :
    ParseInt ((db totalSizeKey).getD "0") = a.total.getD 0 := by
  obtain ⟨_, _, h3, _, h5⟩ := h
  rw [h3]
  cases ht : a.total with
  | none => simp only [Option.map_none', Option.getD_none]; decide
  | some t =>
    simp only [Option.map_some', Option.getD_some]
    exact ParseInt_FormatInt t (h5 t ht)

/-- A file that is counted moves the store from the aggregates `a` to
`a.step (path, size)` and returns nil. -/
theorem process_counts (cp : String → Option (String → Bool)) (filter : String)
    (keep : String → Bool) (hD : Decides cp filter keep) (db : DB) (a : Agg) (path : String)
    (fi : FileInfo) (hf : db.get filterKey = filter) (hH : Holds db a)
    (hdir : fi.isDir = false) (hk : keep fi.name = true) (hs : inInt64 fi.size) :
    ∃ db1, process cp db path (some fi) none = Except.ok (db1, none) ∧
      Holds db1 (a.step (path, fi.size)) ∧ db1.get filterKey = filter := by
  have hL := Holds_parse_large db a hH
  have hT := Holds_parse_total db a hH
  have hmatched : (if filter ≠ "" then
          match cp filter with
          | none => Except.error Panic.regexpCompile
          | some re => Except.ok (re fi.name)
        else (Except.ok true : Except Panic Bool)) = Except.ok true := by
    rcases hD with ⟨he, _⟩ | ⟨hne, hcp⟩
    · simp [he]
    · simp [hne, hcp, hk]
  have k1 : largeFilenameKey ≠ largeSizeKey := by decide
  have k2 : totalSizeKey ≠ largeSizeKey := by decide
  have k3 : totalSizeKey ≠ largeFilenameKey := by decide
  have k4 : filterKey ≠ largeSizeKey := by decide
  have k5 : filterKey ≠ largeFilenameKey := by decide
  have k6 : filterKey ≠ totalSizeKey := by decide
  obtain ⟨h1, h2, h3, h4, h5⟩ := hH
  refine ⟨(if (a.large.map Prod.snd).getD 0 < fi.size then
      (db.set largeSizeKey (FormatInt fi.size)).set largeFilenameKey path
    else db).set totalSizeKey (FormatInt (wrap64 (fi.size + a.total.getD 0))), ?_, ?_, ?_⟩
  · unfold process
    simp only [hdir, hf, hmatched, hL, hT]
    simp
  · by_cases hlt : (a.large.map Prod.snd).getD 0 < fi.size
    · simp only [hlt, if_true, Agg.step, Holds]
      refine ⟨?_, ?_, ?_, ?_, ?_⟩
      · rw [DB_set_other _ _ _ _ k2.symm, DB_set_other _ _ _ _ k1.symm, DB_set_same]
        rfl
      · rw [DB_set_other _ _ _ _ k3.symm, DB_set_same]
        rfl
      · rw [DB_set_same]
        rfl
      · intro p hp
        simp only [Option.some.injEq] at hp
        subst hp
        exact hs
      · intro t ht
        simp only [Option.some.injEq] at ht
        subst ht
        exact wrap64_inInt64 _
    · simp only [hlt, if_false, Agg.step, Holds]
      refine ⟨?_, ?_, ?_, h4, ?_⟩
      · rw [DB_set_other _ _ _ _ k2.symm, h1]
      · rw [DB_set_other _ _ _ _ k3.symm, h2]
      · rw [DB_set_same]
        rfl
      · intro t ht
        simp only [Option.some.injEq] at ht
        subst ht
        exact wrap64_inInt64 _
  · by_cases hlt : (a.large.map Prod.snd).getD 0 < fi.size
    · simp only [hlt, if_true, DB.get]
      rw [DB_set_other _ _ _ _ k6, DB_set_other _ _ _ _ k5, DB_set_other _ _ _ _ k4]
      exact hf
    · simp only [hlt, if_false, DB.get]
      rw [DB_set_other _ _ _ _ k6]
      exact hf

/-! ## The space walk as a fold over the counted files -/

theorem regularCall_spec (c : WalkCall) (h : regularCall c = true) :
    c.err = none ∧ ∃ fi, c.info = some fi ∧ inInt64 fi.size := by
  unfold regularCall at h
  rw [Bool.and_eq_true] at h
  obtain ⟨he, hi⟩ := h
  refine ⟨by simpa using he, ?_⟩
  cases hinfo : c.info with
  | none => simp [hinfo] at hi
  | some fi =>
    rw [hinfo] at hi
    exact ⟨fi, rfl, by simpa using hi⟩

/-- A walk over entries without error ends without error, and the store then
holds the fold of `Agg.step` over the counted files. -/
theorem Walk_process_holds (cp : String → Option (String → Bool)) (filter : String)
    (keep : String → Bool) (hD : Decides cp filter keep) (calls : List WalkCall) :
    ∀ (db : DB) (a : Agg), (∀ c ∈ calls, regularCall c = true) →
      db.get filterKey = filter → Holds db a →
      ∃ db1, Walk (process cp) calls db = Except.ok (db1, none) ∧
        Holds db1 ((countedFiles keep calls).foldl Agg.step a) ∧
        db1.get filterKey = filter := by
  induction calls with
  | nil =>
    intro db a _ hf hH
    exact ⟨db, rfl, by simpa [countedFiles] using hH, hf⟩
  | cons c cs ih =>
    intro db a hreg hf hH
    obtain ⟨herr, fi, hinfo, hsize⟩ := regularCall_spec c (hreg c (List.mem_cons_self _ _))
    have hregs : ∀ x ∈ cs, regularCall x = true := fun x hx => hreg x (List.mem_cons_of_mem _ hx)
    by_cases hcount : fi.isDir = false ∧ keep fi.name = true
    · obtain ⟨hdir, hk⟩ := hcount
      obtain ⟨db1, hp, hH1, hf1⟩ :=
        process_counts cp filter keep hD db a c.path fi hf hH hdir hk hsize
      obtain ⟨db2, hw, hH2, hf2⟩ := ih db1 (a.step (c.path, fi.size)) hregs hf1 hH1
      refine ⟨db2, ?_, ?_, hf2⟩
      · simp only [Walk, hinfo, herr, hp]
        exact hw
      · have hc : countedFiles keep (c :: cs) = (c.path, fi.size) :: countedFiles keep cs := by
          simp [countedFiles, List.filterMap_cons, hinfo, hdir, hk]
        rw [hc, List.foldl_cons]
        exact hH2
    · have hskip : fi.isDir = true ∨ keep fi.name = false := by
        by_cases hdir : fi.isDir = true
        · exact Or.inl hdir
        · right
          by_contra hk
          exact hcount ⟨by simpa using hdir, by simpa using hk⟩
      have hp := process_skips cp filter keep hD db c.path fi none hf hskip
      obtain ⟨db2, hw, hH2, hf2⟩ := ih db a hregs hf hH
      refine ⟨db2, ?_, ?_, hf2⟩
      · simp only [Walk, hinfo, herr, hp]
        exact hw
      · have hc : countedFiles keep (c :: cs) = countedFiles keep cs := by
          rcases hskip with hdir | hk
          · simp [countedFiles, List.filterMap_cons, hinfo, hdir]
          · simp [countedFiles, List.filterMap_cons, hinfo, hk]
        rw [hc]
        exact hH2

theorem Holds_init (filter : String) : Holds (DB.empty.set filterKey filter) Agg.init := by
  have k1 : largeSizeKey ≠ filterKey := by decide
  have k2 : largeFilenameKey ≠ filterKey := by decide
  have k3 : totalSizeKey ≠ filterKey := by decide
  refine ⟨?_, ?_, ?_, ?_, ?_⟩
  · rw [DB_set_other _ _ _ _ k1]; rfl
  · rw [DB_set_other _ _ _ _ k2]; rfl
  · rw [DB_set_other _ _ _ _ k3]; rfl
  · intro p hp; simp [Agg.init] at hp
  · intro t ht; simp [Agg.init] at ht

theorem get_filter_set (db : DB) (filter : String) : (db.set filterKey filter).get filterKey = filter := by
  simp [DB.get, DB.set]

/-! ### The total -/

theorem foldl_step_total (l : List (String × Int)) : ∀ a : Agg,
    (∀ p ∈ l, 0 ≤ p.2) → 0 ≤ a.total.getD 0 → a.total.getD 0 + sumSizes l ≤ maxInt64 →
    ((l.foldl Agg.step a).total).getD 0 = a.total.getD 0 + sumSizes l := by
  induction l with
  | nil => intro a _ _ _; simp [sumSizes]
  | cons p ps ih =>
    intro a hpos h0 hsum
    have hp : 0 ≤ p.2 := hpos p (List.mem_cons_self _ _)
    have hps : ∀ q ∈ ps, 0 ≤ q.2 := fun q hq => hpos q (List.mem_cons_of_mem _ hq)
    have hrest : 0 ≤ sumSizes ps := by
      unfold sumSizes
      apply List.sum_nonneg
      intro x hx
      obtain ⟨q, hq, rfl⟩ := List.mem_map.mp hx
      exact hps q hq
    have hcons : sumSizes (p :: ps) = p.2 + sumSizes ps := by simp [sumSizes]
    rw [hcons] at hsum ⊢
    have hw : wrap64 (p.2 + a.total.getD 0) = p.2 + a.total.getD 0 := by
      apply wrap64_of_inInt64
      unfold inInt64 minInt64
      constructor <;> omega
    have hstep : (a.step p).total.getD 0 = p.2 + a.total.getD 0 := by
      simp [Agg.step, hw]
    rw [List.foldl_cons, ih (a.step p) hps (by rw [hstep]; omega) (by rw [hstep]; omega), hstep]
    omega

/-- Decoding `TOTAL_SIZE` as `Space` does (missing key read as the empty
string, `ParseUint`) and as `process` does (missing key read as `"0"`,
`ParseInt`) gives the held total. -/
theorem Holds_total_decoded (db : DB) (a : Agg) (h : Holds db a) (h0 : 0 ≤ a.total.getD 0) :
    (ParseUint (db.get totalSizeKey) : Int) = a.total.getD 0 ∧
      ParseInt ((db totalSizeKey).getD "0") = a.total.getD 0 := by
  refine ⟨?_, Holds_parse_total db a h⟩
  obtain ⟨_, _, h3, _, h5⟩ := h
  unfold DB.get
  rw [h3]
  cases ht : a.total with
  | none => simp only [Option.map_none', Option.getD_none]; decide
  | some t =>
    rw [ht] at h0
    simp only [Option.map_some', Option.getD_some] at h0 ⊢
    exact ParseUint_FormatInt t h0 (h5 t ht).2

/-! ### The largest file -/

theorem maxSize_nonneg (l : List (String × Int)) : 0 ≤ maxSize l := by
  induction l with
  | nil => simp [maxSize]
  | cons p ps ih =>
    have : maxSize (p :: ps) = max p.2 (maxSize ps) := rfl
    rw [this]
    exact le_max_of_le_right ih

theorem le_maxSize (l : List (String × Int)) : ∀ p ∈ l, p.2 ≤ maxSize l := by
  induction l with
  | nil => intro p hp; simp at hp
  | cons x xs ih =>
    intro p hp
    have : maxSize (x :: xs) = max x.2 (maxSize xs) := rfl
    rw [this]
    rcases List.mem_cons.mp hp with h | h
    · subst h
      exact le_max_left _ _
    · exact le_max_of_le_right (ih p h)

theorem maxSize_attained (l : List (String × Int)) (h : 0 < maxSize l) :
    ∃ p ∈ l, p.2 = maxSize l := by
  induction l with
  | nil => simp [maxSize] at h
  | cons x xs ih =>
    have hm : maxSize (x :: xs) = max x.2 (maxSize xs) := rfl
    rw [hm] at h ⊢
    rcases le_total x.2 (maxSize xs) with hle | hle
    · rw [max_eq_right hle] at h ⊢
      obtain ⟨p, hp, he⟩ := ih h
      exact ⟨p, List.mem_cons_of_mem _ hp, he⟩
    · rw [max_eq_left hle]
      exact ⟨x, List.mem_cons_self _ _, rfl⟩

theorem maxSize_snoc (l : List (String × Int)) (p : String × Int) :
    maxSize (l ++ [p]) = max (maxSize l) p.2 := by
  induction l with
  | nil =>
    have : maxSize ([] ++ [p]) = max p.2 0 := rfl
    rw [this, max_comm]
    rfl
  | cons x xs ih =>
    have h1 : maxSize (x :: xs ++ [p]) = max x.2 (maxSize (xs ++ [p])) := rfl
    have h2 : maxSize (x :: xs) = max x.2 (maxSize xs) := rfl
    rw [h1, h2, ih, max_assoc]

theorem largestCounted_size (l : List (String × Int)) :
    ((largestCounted l).map Prod.snd).getD 0 = maxSize l := by
  unfold largestCounted
  by_cases h : 0 < maxSize l
  · obtain ⟨q, hq, he⟩ := maxSize_attained l h
    simp only [h, if_true]
    cases hf : l.find? (fun p => decide (p.2 = maxSize l)) with
    | none =>
      rw [List.find?_eq_none] at hf
      exact absurd (by simpa using he) (hf q hq)
    | some r =>
      have := List.find?_some hf
      simpa using this
  · have := maxSize_nonneg l
    simp only [h, if_false, Option.map_none', Option.getD_none]
    omega

/-- One more counted file replaces the largest file exactly when its size is
strictly greater than the largest size so far. -/
theorem largestCounted_snoc (l : List (String × Int)) (p : String × Int) :
    largestCounted (l ++ [p]) =
      if ((largestCounted l).map Prod.snd).getD 0 < p.2 then some p else largestCounted l := by
  rw [largestCounted_size]
  have hnn := maxSize_nonneg l
  by_cases hlt : maxSize l < p.2
  · have hm : maxSize (l ++ [p]) = p.2 := by
      rw [maxSize_snoc]
      exact max_eq_right (le_of_lt hlt)
    have hpos : 0 < p.2 := by omega
    have hnone : l.find? (fun q => decide (q.2 = p.2)) = none := by
      rw [List.find?_eq_none]
      intro q hq
      have := le_maxSize l q hq
      simp only [decide_eq_true_eq]
      omega
    simp only [largestCounted, hm, hpos, hlt, if_true, List.find?_append, hnone]
    simp
  · have hm : maxSize (l ++ [p]) = maxSize l := by
      rw [maxSize_snoc]
      exact max_eq_left (by omega)
    simp only [hlt, if_false]
    unfold largestCounted
    rw [hm]
    by_cases hpos : 0 < maxSize l
    · obtain ⟨q, hq, he⟩ := maxSize_attained l hpos
      simp only [hpos, if_true, List.find?_append]
      cases hf : l.find? (fun p => decide (p.2 = maxSize l)) with
      | none =>
        rw [List.find?_eq_none] at hf
        exact absurd (by simpa using he) (hf q hq)
      | some r => rfl
    · simp only [hpos, if_false]

theorem foldl_step_large (l : List (String × Int)) :
    (l.foldl Agg.step Agg.init).large = largestCounted l := by
  induction l using List.reverseRecOn with
  | nil => rfl
  | append_singleton xs p ih =>
    rw [List.foldl_append, largestCounted_snoc, ← ih]
    rfl

theorem maxSize_le_of_subset (l1 l2 : List (String × Int)) (h : ∀ p ∈ l1, p ∈ l2) :
    maxSize l1 ≤ maxSize l2 := by
  by_cases hpos : 0 < maxSize l1
  · obtain ⟨q, hq, he⟩ := maxSize_attained l1 hpos
    rw [← he]
    exact le_maxSize l2 q (h q hq)
  · have := maxSize_nonneg l2
    omega

theorem find_of_nodup (l : List (String × Int)) : ∀ q ∈ l, (l.map Prod.snd).Nodup →
    l.find? (fun p => decide (p.2 = q.2)) = some q := by
  induction l with
  | nil => intro q hq; simp at hq
  | cons x xs ih =>
    intro q hq hnd
    rw [List.map_cons, List.nodup_cons] at hnd
    obtain ⟨hx, hnd⟩ := hnd
    rcases List.mem_cons.mp hq with h | h
    · subst h
      simp
    · have hne : ¬ x.2 = q.2 := by
        intro he
        apply hx
        rw [he]
        exact List.mem_map.mpr ⟨q, h, rfl⟩
      rw [List.find?_cons_of_neg _ (by simpa using hne)]
      exact ih q h hnd

/-- With pairwise distinct sizes the largest file does not depend on the
order of the list. -/
theorem largestCounted_perm (l1 l2 : List (String × Int)) (h : l1.Perm l2)
    (hnd : (l1.map Prod.snd).Nodup) : largestCounted l1 = largestCounted l2 := by
  have hm : maxSize l1 = maxSize l2 :=
    le_antisymm (maxSize_le_of_subset l1 l2 (fun p hp => h.subset hp))
      (maxSize_le_of_subset l2 l1 (fun p hp => h.symm.subset hp))
  have hnd2 : (l2.map Prod.snd).Nodup := (h.map Prod.snd).nodup_iff.mp hnd
  unfold largestCounted
  rw [← hm]
  by_cases hpos : 0 < maxSize l1
  · obtain ⟨q, hq, he⟩ := maxSize_attained l1 hpos
    simp only [hpos, if_true]
    rw [← he, find_of_nodup l1 q hq hnd, find_of_nodup l2 q (h.subset hq) hnd2]
  · simp only [hpos, if_false]

theorem countedFiles_perm (keep : String → Bool) (c1 c2 : List WalkCall) (h : c1.Perm c2) :
    (countedFiles keep c1).Perm (countedFiles keep c2) :=
  List.Perm.filterMap _ h

/-! ## Volume scan -/

/-- C1 (the code at the scenario): on the tree `/a/x` (10), `/a/b/y` (30),
`/a/b/z` (5) the files directly under `/a/b` add up to 35, and `VolumeScanner`
reports TOTAL_SIZE 45, LARGEST_DIR `/a/b` and LARGEST_DIR_SIZE 30: the sum is
added to a copy of the directory statistics that is never stored back, so
each file is compared alone. -/
theorem VolumeScanner_scenario_reports_largest_file_size :
    dirSum scenarioTree "/a/b" = 35 ∧
    VolumeScanner (worldOf true scenarioTree none) "/a" = Except.ok
      { events := [Event.walk "/a", views.Print
          [ [Cell.text "TOTAL_SIZE", Cell.byteSize 45, Cell.text ""],
            [Cell.text "LARGEST_DIR", Cell.text "/a/b", Cell.text ""],
            [Cell.text "LARGEST_DIR_SIZE", Cell.byteSize 30, Cell.text ""] ]],
        err := none } := by
  constructor
  · decide
  · rfl

/-! ## Space scan -/

/-- C2: from the empty store with the empty filter, a walk over entries that
meet no error ends without error, and TOTAL_SIZE, decoded as `Space` and as
`process` decode it, is the sum of the sizes of the entries that are no
directory, provided these sizes are non-negative and their sum is an
`int64`. -/
theorem process_total_is_sum (cp : String → Option (String → Bool)) (calls : List WalkCall)
    (hreg : ∀ c ∈ calls, regularCall c = true)
    (hpos : ∀ p ∈ countedFiles (fun _ => true) calls, 0 ≤ p.2)
    (hsum : sumSizes (countedFiles (fun _ => true) calls) ≤ maxInt64) :
    ∃ db1, Walk (process cp) calls (DB.empty.set filterKey "") = Except.ok (db1, none) ∧
      (ParseUint (db1.get totalSizeKey) : Int) = sumSizes (countedFiles (fun _ => true) calls) ∧
      ParseInt ((db1 totalSizeKey).getD "0") = sumSizes (countedFiles (fun _ => true) calls) := by
  obtain ⟨db1, hw, hH, _⟩ := Walk_process_holds cp "" (fun _ => true) (Or.inl ⟨rfl, rfl⟩) calls
    (DB.empty.set filterKey "") Agg.init hreg (get_filter_set _ _) (Holds_init "")
  have ht := foldl_step_total (countedFiles (fun _ => true) calls) Agg.init hpos
    (by simp [Agg.init]) (by simpa [Agg.init] using hsum)
  have h0 : (Agg.init.total).getD 0 = 0 := rfl
  rw [h0, zero_add] at ht
  have hnn : 0 ≤ sumSizes (countedFiles (fun _ => true) calls) := by
    unfold sumSizes
    apply List.sum_nonneg
    intro x hx
    obtain ⟨q, hq, rfl⟩ := List.mem_map.mp hx
    exact hpos q hq
  obtain ⟨hu, hi⟩ := Holds_total_decoded db1 _ hH (by rw [ht]; exact hnn)
  exact ⟨db1, hw, by rw [hu, ht], by rw [hi, ht]⟩

theorem process_total_is_sum_witness :
    ∃ db1, Walk (process anchoredLiteral) scenarioTree (DB.empty.set filterKey "")
        = Except.ok (db1, none) ∧
      (ParseUint (db1.get totalSizeKey) : Int) = 45 ∧
      ParseInt ((db1 totalSizeKey).getD "0") = 45 := by
  obtain ⟨db1, hw, hu, hi⟩ := process_total_is_sum anchoredLiteral scenarioTree
    (by decide) (by decide) (by decide)
  exact ⟨db1, hw, by rw [hu]; decide, by rw [hi]; decide⟩

theorem find_congr_mem {α : Type} (p q : α → Bool) (l : List α) :
    (∀ x ∈ l, p x = q x) → l.find? p = l.find? q := by
  induction l with
  | nil => intro _; rfl
  | cons x xs ih =>
    intro h
    have hx := h x (List.mem_cons_self _ _)
    have hxs := ih (fun y hy => h y (List.mem_cons_of_mem _ hy))
    simp only [List.find?_cons, hx, hxs]

theorem largestCounted_eq_claimed (l : List (String × Int)) (h : 0 < maxSize l) :
    largestCounted l = claimedLargest l := by
  obtain ⟨q0, hq0, he0⟩ := maxSize_attained l h
  unfold largestCounted claimedLargest
  simp only [h, if_true]
  apply find_congr_mem
  intro x hx
  rw [decide_eq_decide]
  constructor
  · intro hxm q hq
    rw [hxm]
    exact le_maxSize l q hq
  · intro hall
    exact le_antisymm (le_maxSize l x hx) (by rw [← he0]; exact hall q0 hq0)

theorem maxSize_pos_of_mem (l : List (String × Int)) (h : ∃ p ∈ l, 0 < p.2) : 0 < maxSize l := by
  obtain ⟨p, hp, h0⟩ := h
  exact lt_of_lt_of_le h0 (le_maxSize l p hp)

theorem largestCounted_of_nonpos (l : List (String × Int)) (h : ∀ p ∈ l, p.2 ≤ 0) :
    largestCounted l = none := by
  have : ¬ 0 < maxSize l := by
    intro hpos
    obtain ⟨q, hq, he⟩ := maxSize_attained l hpos
    have := h q hq
    omega
  simp [largestCounted, this]

/-- The store after a walk without error holds the largest counted file. -/
theorem Walk_process_largest (cp : String → Option (String → Bool)) (filter : String)
    (keep : String → Bool) (hD : Decides cp filter keep) (calls : List WalkCall)
    (hreg : ∀ c ∈ calls, regularCall c = true) :
    ∃ db1, Walk (process cp) calls (DB.empty.set filterKey filter) = Except.ok (db1, none) ∧
      db1 largeSizeKey = (largestCounted (countedFiles keep calls)).map (fun p => FormatInt p.2) ∧
      db1 largeFilenameKey = (largestCounted (countedFiles keep calls)).map Prod.fst ∧
      Holds db1 ((countedFiles keep calls).foldl Agg.step Agg.init) := by
  obtain ⟨db1, hw, hH, _⟩ := Walk_process_holds cp filter keep hD calls
    (DB.empty.set filterKey filter) Agg.init hreg (get_filter_set _ _) (Holds_init filter)
  refine ⟨db1, hw, ?_, ?_, hH⟩
  · rw [hH.1, foldl_step_large]
  · rw [hH.2.1, foldl_step_large]

/-- C3 (amended): from the empty store, after a walk over entries that meet
no error, when some counted file has a positive size LARGE_SIZE is the
maximum of the counted sizes and LARGE_FILE_NAME is the path of the first
counted file, in walk order, of that size; when no counted file has a
positive size both keys stay unset. With pairwise distinct counted sizes a
walk over any permutation of the entries leaves the same two values. -/
theorem process_largest_file (cp : String → Option (String → Bool)) (filter : String)
    (keep : String → Bool) (hD : Decides cp filter keep) (calls calls2 : List WalkCall)
    (hreg : ∀ c ∈ calls, regularCall c = true) :
    ∃ db1, Walk (process cp) calls (DB.empty.set filterKey filter) = Except.ok (db1, none) ∧
      ((∃ p ∈ countedFiles keep calls, 0 < p.2) →
        ∃ path size, claimedLargest (countedFiles keep calls) = some (path, size) ∧
          db1 largeSizeKey = some (FormatInt size) ∧ db1 largeFilenameKey = some path ∧
          ∀ q ∈ countedFiles keep calls, q.2 ≤ size) ∧
      ((∀ p ∈ countedFiles keep calls, p.2 ≤ 0) →
        db1 largeSizeKey = none ∧ db1 largeFilenameKey = none) ∧
      (calls.Perm calls2 → ((countedFiles keep calls).map Prod.snd).Nodup →
        ∃ db2, Walk (process cp) calls2 (DB.empty.set filterKey filter) = Except.ok (db2, none) ∧
          db2 largeSizeKey = db1 largeSizeKey ∧ db2 largeFilenameKey = db1 largeFilenameKey) := by
  obtain ⟨db1, hw, hs, hn, _⟩ := Walk_process_largest cp filter keep hD calls hreg
  refine ⟨db1, hw, ?_, ?_, ?_⟩
  · intro hex
    have hpos := maxSize_pos_of_mem _ hex
    have hlc := largestCounted_eq_claimed _ hpos
    obtain ⟨q0, hq0, he0⟩ := maxSize_attained _ hpos
    cases hc : claimedLargest (countedFiles keep calls) with
    | none =>
      unfold claimedLargest at hc
      rw [List.find?_eq_none] at hc
      refine absurd ?_ (hc q0 hq0)
      simp only [decide_eq_true_eq]
      intro q hq
      rw [he0]
      exact le_maxSize _ q hq
    | some r =>
      have hr := List.find?_some hc
      simp only [decide_eq_true_eq] at hr
      refine ⟨r.1, r.2, rfl, ?_, ?_, hr⟩
      · rw [hs, hlc, hc]; rfl
      · rw [hn, hlc, hc]; rfl
  · intro hall
    rw [hs, hn, largestCounted_of_nonpos _ hall]
    exact ⟨rfl, rfl⟩
  · intro hperm hnd
    have hreg2 : ∀ c ∈ calls2, regularCall c = true := fun c hc => hreg c (hperm.symm.subset hc)
    obtain ⟨db2, hw2, hs2, hn2, _⟩ := Walk_process_largest cp filter keep hD calls2 hreg2
    have heq := largestCounted_perm _ _ (countedFiles_perm keep calls calls2 hperm) hnd
    exact ⟨db2, hw2, by rw [hs2, hs, heq], by rw [hn2, hn, heq]⟩

theorem process_largest_file_witness :
    ∃ db1, Walk (process anchoredLiteral) scenarioTree (DB.empty.set filterKey "")
        = Except.ok (db1, none) ∧
      db1 largeSizeKey = some "30" ∧ db1 largeFilenameKey = some "/a/b/y" ∧
      ∃ db2, Walk (process anchoredLiteral) scenarioTree.reverse (DB.empty.set filterKey "")
          = Except.ok (db2, none) ∧
        db2 largeSizeKey = some "30" ∧ db2 largeFilenameKey = some "/a/b/y" := by
  obtain ⟨db1, hw, hpos, _, hperm⟩ := process_largest_file anchoredLiteral "" (fun _ => true)
    (Or.inl ⟨rfl, rfl⟩) scenarioTree scenarioTree.reverse (by decide)
  obtain ⟨path, size, hc, hs, hn, _⟩ := hpos ⟨("/a/b/y", 30), by decide, by decide⟩
  have hc2 : claimedLargest (countedFiles (fun _ => true) scenarioTree) = some ("/a/b/y", 30) := by
    decide
  rw [hc2] at hc
  simp only [Option.some.injEq, Prod.mk.injEq] at hc
  obtain ⟨hp, hz⟩ := hc
  subst hp hz
  obtain ⟨db2, hw2, hs2, hn2⟩ := hperm (List.reverse_perm _).symm (by decide)
  have hf : FormatInt 30 = "30" := by decide
  rw [hf] at hs
  exact ⟨db1, hw, hs, hn, db2, hw2, by rw [hs2, hs], by rw [hn2, hn]⟩

/-- C3 (as stated, refuted): a single file `/a/x` of 0 bytes is the first
counted file of the maximum size, yet after the walk LARGE_SIZE and
LARGE_FILE_NAME are unset, so that the report shows the empty name: a size
is recorded only when it is strictly greater than the largest so far, which
starts at 0. -/
theorem process_empty_file_unrecorded :
    claimedLargest (countedFiles (fun _ => true) [fileCall "/a/x" "x" 0]) = some ("/a/x", 0) ∧
    (match Walk (process anchoredLiteral) [fileCall "/a/x" "x" 0] (DB.empty.set filterKey "") with
      | Except.ok (db1, e) => some (db1 totalSizeKey, db1 largeSizeKey, db1 largeFilenameKey, e)
      | Except.error _ => none) = some (some "0", none, none, none) := by
  decide

theorem countedFiles_nil_of_no_match (keep : String → Bool) (calls : List WalkCall)
    (h : ∀ c ∈ calls, ∀ fi, c.info = some fi → fi.isDir = false → keep fi.name = false) :
    countedFiles keep calls = [] := by
  unfold countedFiles
  rw [List.filterMap_eq_nil_iff]
  intro c hc
  cases hinfo : c.info with
  | none => rfl
  | some fi =>
    by_cases hdir : fi.isDir = true
    · simp [hdir]
    · have hd : fi.isDir = false := by simpa using hdir
      simp [hd, h c hc fi hinfo hd]

/-- C4: under a non-empty filter that compiles to the matcher `re`, a file
whose base name `re` rejects leaves the store as it is; after a walk from the
empty store over entries that meet no error, TOTAL_SIZE is the sum of the
sizes of the files whose base name `re` accepts (sizes non-negative, sum an
`int64`) and the largest-file record is the one of these files; when `re`
accepts no file name, TOTAL_SIZE decodes to 0 and the report row of
LARGE_FILE_NAME carries the empty name. -/
theorem process_filter (cp : String → Option (String → Bool)) (filter : String)
    (re : String → Bool) (hne : filter ≠ "") (hcp : cp filter = some re) :
    (∀ (db : DB) (path : String) (fi : FileInfo) (err : Option Error),
      db.get filterKey = filter → fi.isDir = false → re fi.name = false →
      process cp db path (some fi) err = Except.ok (db, err)) ∧
    ∀ calls : List WalkCall, (∀ c ∈ calls, regularCall c = true) →
      ∃ db1, Walk (process cp) calls (DB.empty.set filterKey filter) = Except.ok (db1, none) ∧
        ((∀ p ∈ countedFiles re calls, 0 ≤ p.2) → sumSizes (countedFiles re calls) ≤ maxInt64 →
          (ParseUint (db1.get totalSizeKey) : Int) = sumSizes (countedFiles re calls)) ∧
        db1 largeSizeKey
          = (largestCounted (countedFiles re calls)).map (fun p => FormatInt p.2) ∧
        db1 largeFilenameKey = (largestCounted (countedFiles re calls)).map Prod.fst ∧
        ((∀ c ∈ calls, ∀ fi, c.info = some fi → fi.isDir = false → re fi.name = false) →
          ParseUint (db1.get totalSizeKey) = 0 ∧ db1.get largeFilenameKey = "" ∧
          ∀ (rnd : ℚ → ℚ) (root : disk) (elapsed : F64),
            (spaceRows rnd db1 root elapsed).head?
              = some [Cell.text "LARGE_FILE_NAME", Cell.text "", Cell.text "NA"]) := by
  have hD : Decides cp filter re := Or.inr ⟨hne, hcp⟩
  constructor
  · intro db path fi err hf _ hk
    exact process_skips cp filter re hD db path fi err hf (Or.inr hk)
  · intro calls hreg
    obtain ⟨db1, hw, hs, hn, hH⟩ := Walk_process_largest cp filter re hD calls hreg
    refine ⟨db1, hw, ?_, hs, hn, ?_⟩
    · intro hpos hsum
      have ht := foldl_step_total (countedFiles re calls) Agg.init hpos
        (by simp [Agg.init]) (by simpa [Agg.init] using hsum)
      have h0 : (Agg.init.total).getD 0 = 0 := rfl
      rw [h0, zero_add] at ht
      have hnn : 0 ≤ sumSizes (countedFiles re calls) := by
        unfold sumSizes
        apply List.sum_nonneg
        intro x hx
        obtain ⟨q, hq, rfl⟩ := List.mem_map.mp hx
        exact hpos q hq
      rw [(Holds_total_decoded db1 _ hH (by rw [ht]; exact hnn)).1, ht]
    · intro hno
      have hnil := countedFiles_nil_of_no_match re calls hno
      rw [hnil] at hH hn
      have htot : db1 totalSizeKey = none := hH.2.2.1
      have hname : db1.get largeFilenameKey = "" := by
        unfold DB.get
        rw [hn]
        rfl
      refine ⟨?_, hname, ?_⟩
      · unfold DB.get
        rw [htot]
        decide
      · intro rnd root elapsed
        simp [spaceRows, hname]

theorem process_filter_witness :
    process anchoredLiteral (DB.empty.set filterKey "^x$") "/a/b/y"
        (some { name := "y", size := 30, isDir := false }) none
      = Except.ok (DB.empty.set filterKey "^x$", none) ∧
    ∃ db1, Walk (process anchoredLiteral) scenarioTree (DB.empty.set filterKey "^x$")
        = Except.ok (db1, none) ∧
      (ParseUint (db1.get totalSizeKey) : Int) = 10 ∧
      db1 largeSizeKey = some "10" ∧ db1 largeFilenameKey = some "/a/x" := by
  have h := process_filter anchoredLiteral "^x$" (fun name => decide (name.data = ['x']))
    (by decide) rfl
  refine ⟨h.1 _ _ _ _ (by decide) rfl (by decide), ?_⟩
  obtain ⟨db1, hw, ht, hs, hn, _⟩ := h.2 scenarioTree (by decide)
  have hc : countedFiles (fun name => decide (name.data = ['x'])) scenarioTree = [("/a/x", 10)] := by
    decide
  rw [hc] at ht hs hn
  exact ⟨db1, hw, ht (by decide) (by decide), hs, hn⟩

/-! ## Errors -/

/-- C5 (amended): when the walk aborts with an error, `VolumeScanner` still
prints the report built from the aggregates collected so far and then returns
the error, while `Space`, on an existing path, probes the disk and returns the
error without printing a report. -/
theorem report_on_walk_error (cp : String → Option (String → Bool)) (rnd : ℚ → ℚ) (w : World)
    (pathToScan : String) (st : VolumeState) (db db1 : DB) (inputs : SpaceInputs) (e : Error) :
    (Walk volumeWalkFn (w.walkCalls pathToScan) VolumeState.init = Except.ok (st, some e) →
      VolumeScanner w pathToScan = Except.ok
        { events := [Event.walk pathToScan, views.Print (volumeRows st)], err := some e }) ∧
    (w.stat inputs.FilesystemPath = true →
      Walk (process cp) (w.walkCalls inputs.FilesystemPath) (db.set filterKey inputs.Filter)
        = Except.ok (db1, some e) →
      Space cp rnd w db inputs = Except.ok (db1,
        { events := [Event.stat inputs.FilesystemPath, Event.walk inputs.FilesystemPath,
            Event.statfs "/"], err := some e })) := by
  constructor
  · intro h
    simp [VolumeScanner, h]
  · intro hs h
    simp [Space, verify, hs, h]

theorem report_on_walk_error_witness :
    VolumeScanner (worldOf true unreadableTree none) "/a" = Except.ok
      { events := [Event.walk "/a", views.Print
          [ [Cell.text "TOTAL_SIZE", Cell.byteSize 10, Cell.text ""],
            [Cell.text "LARGEST_DIR", Cell.text "/a", Cell.text ""],
            [Cell.text "LARGEST_DIR_SIZE", Cell.byteSize 10, Cell.text ""] ]],
        err := some "open /a/secret: permission denied" } ∧
    ∃ db1, Space anchoredLiteral id (worldOf true unreadableTree none) DB.empty
        { FilesystemPath := "/a", RootFilesystem := "", Filter := "" } = Except.ok (db1,
      { events := [Event.stat "/a", Event.walk "/a", Event.statfs "/"],
        err := some "open /a/secret: permission denied" }) := by
  have h := report_on_walk_error anchoredLiteral id (worldOf true unreadableTree none) "/a"
    { result := fun k => if k = "/a" then some { Path := "/a", TotalSize := 0 } else none,
      largestDir := "/a", largestSize := 10, totalSize := 10, cwd := "/a" }
    DB.empty
    ((((DB.empty.set filterKey "").set largeSizeKey "10").set largeFilenameKey "/a/b").set
      totalSizeKey "10")
    { FilesystemPath := "/a", RootFilesystem := "", Filter := "" }
    "open /a/secret: permission denied"
  exact ⟨h.1 rfl, _, h.2 rfl rfl⟩

/-- C5 (as stated, refuted): on a tree with an unreadable directory, `Space`
returns the error of the walk and its effects are the path check, the walk
and the disk probe: no report is printed. -/
theorem Space_prints_nothing_on_walk_error :
    (Space anchoredLiteral id (worldOf true unreadableTree none) DB.empty
        { FilesystemPath := "/a", RootFilesystem := "", Filter := "" }).toOption.map Prod.snd
      = some { events := [Event.stat "/a", Event.walk "/a", Event.statfs "/"],
               err := some "open /a/secret: permission denied" } := by
  decide

/-- C6 (the code at a path that does not exist): `VolumeScanner` does not
check the path; it starts the walk, whose single call carries the `Lstat`
error, prints a report of zeros and returns that error. `Space` on the same
path stops after the path check. -/
theorem VolumeScanner_walks_missing_path :
    VolumeScanner (worldOf false missingRoot none) "/nonexistent" = Except.ok
      { events := [Event.walk "/nonexistent", views.Print
          [ [Cell.text "TOTAL_SIZE", Cell.byteSize 0, Cell.text ""],
            [Cell.text "LARGEST_DIR", Cell.text "", Cell.text ""],
            [Cell.text "LARGEST_DIR_SIZE", Cell.byteSize 0, Cell.text ""] ]],
        err := some "lstat /nonexistent: no such file or directory" } ∧
    (Space anchoredLiteral id (worldOf false missingRoot none) DB.empty
        { FilesystemPath := "/nonexistent", RootFilesystem := "", Filter := "" }).toOption.map
          Prod.snd
      = some { events := [Event.stat "/nonexistent"], err := some "Path is not abosule path" } := by
  constructor
  · rfl
  · decide

/-- C7 (the code at an entry without file info): `process` reads
`info.IsDir()` before it looks at the error, so an entry passed with an error
and no file info ends the process with a nil dereference, whatever the store;
the walk function of `VolumeScanner` checks the error first and returns it
with its variables as they were. -/
theorem process_nil_info_dereference (cp : String → Option (String → Bool)) (db : DB)
    (st : VolumeState) (path : String) (e : Error) :
    process cp db path none (some e) = Except.error Panic.nilDereference ∧
    volumeWalkFn st path none (some e) = Except.ok (st, some e) := by
  constructor
  · rfl
  · simp [volumeWalkFn]

/-! ## The store across invocations -/

theorem process_keeps_filter (cp : String → Option (String → Bool)) (db db1 : DB)
    (path : String) (info : Option FileInfo) (err e : Option Error)
    (h : process cp db path info err = Except.ok (db1, e)) : db1 filterKey = db filterKey := by
  have k4 : filterKey ≠ largeSizeKey := by decide
  have k5 : filterKey ≠ largeFilenameKey := by decide
  have k6 : filterKey ≠ totalSizeKey := by decide
  unfold process at h
  cases info with
  | none => simp at h
  | some fi =>
    simp only at h
    split at h
    · simp only [Except.ok.injEq, Prod.mk.injEq] at h
      rw [← h.1]
    · split at h
      · simp at h
      · simp only [Except.ok.injEq, Prod.mk.injEq] at h
        rw [← h.1]
      · split at h
        · simp only [Except.ok.injEq, Prod.mk.injEq] at h
          rw [← h.1]
        · simp only [Except.ok.injEq, Prod.mk.injEq] at h
          rw [← h.1]
          split
          · rw [DB_set_other _ _ _ _ k6, DB_set_other _ _ _ _ k5, DB_set_other _ _ _ _ k4]
          · rw [DB_set_other _ _ _ _ k6]

theorem Walk_keeps_filter (cp : String → Option (String → Bool)) (calls : List WalkCall) :
    ∀ (db db1 : DB) (e : Option Error), Walk (process cp) calls db = Except.ok (db1, e) →
      db1 filterKey = db filterKey := by
  induction calls with
  | nil =>
    intro db db1 e h
    simp only [Walk, Except.ok.injEq, Prod.mk.injEq] at h
    rw [← h.1]
  | cons c cs ih =>
    intro db db1 e h
    unfold Walk at h
    cases hp : process cp db c.path c.info c.err with
    | error p => rw [hp] at h; simp at h
    | ok r =>
      obtain ⟨d, r2⟩ := r
      have hk := process_keeps_filter cp db d c.path c.info c.err r2 hp
      rw [hp] at h
      cases r2 with
      | some e2 =>
        simp only [Except.ok.injEq, Prod.mk.injEq] at h
        rw [← h.1, hk]
      | none =>
        simp only at h
        rw [ih d db1 e h, hk]

theorem Walk_append {σ : Type}
    (fn : σ → String → Option FileInfo → Option Error → Except Panic (σ × Option Error))
    (xs ys : List WalkCall) : ∀ (s s1 : σ), Walk fn xs s = Except.ok (s1, none) →
      Walk fn (xs ++ ys) s = Walk fn ys s1 := by
  induction xs with
  | nil =>
    intro s s1 h
    simp only [Walk, Except.ok.injEq, Prod.mk.injEq] at h
    rw [List.nil_append, h.1]
  | cons c cs ih =>
    intro s s1 h
    rw [List.cons_append]
    unfold Walk at h
    conv_lhs => unfold Walk
    cases hp : fn s c.path c.info c.err with
    | error p => rw [hp] at h; simp at h
    | ok r =>
      obtain ⟨d, r2⟩ := r
      rw [hp] at h
      cases r2 with
      | some e2 => simp at h
      | none =>
        simp only at h ⊢
        exact ih d s1 h

/-- A walk that starts from the store a finished walk left, under the same
filter, continues that walk. -/
theorem Walk_process_resume (cp : String → Option (String → Bool)) (filter : String)
    (T1 T2 : List WalkCall) (db0 db1 : DB)
    (h : Walk (process cp) T1 (db0.set filterKey filter) = Except.ok (db1, none)) :
    Walk (process cp) T2 (db1.set filterKey filter)
      = Walk (process cp) (T1 ++ T2) (db0.set filterKey filter) := by
  have hk := Walk_keeps_filter cp T1 _ _ _ h
  rw [DB_set_same] at hk
  have hset : db1.set filterKey filter = db1 := by
    funext k
    by_cases hkk : k = filterKey
    · subst hkk
      rw [DB_set_same, hk]
    · rw [DB_set_other _ _ _ _ hkk]
  rw [hset, Walk_append (process cp) T1 T2 _ db1 h]

/-- What a call of `Space` that returns nil went through: the path exists
and the walk from the store with the filter set ended without error in the
store the call leaves. -/
theorem Space_ok_walk (cp : String → Option (String → Bool)) (rnd : ℚ → ℚ) (w : World)
    (db0 db1 : DB) (inputs : SpaceInputs) (o : Outcome)
    (h : Space cp rnd w db0 inputs = Except.ok (db1, o)) (he : o.err = none) :
    w.stat inputs.FilesystemPath = true ∧
    Walk (process cp) (w.walkCalls inputs.FilesystemPath) (db0.set filterKey inputs.Filter)
      = Except.ok (db1, none) := by
  unfold Space verify at h
  by_cases hs : w.stat inputs.FilesystemPath = true
  · refine ⟨hs, ?_⟩
    simp only [hs, Bool.not_true, Bool.false_eq_true, if_false] at h
    cases hw : Walk (process cp) (w.walkCalls inputs.FilesystemPath)
        (db0.set filterKey inputs.Filter) with
    | error p => rw [hw] at h; simp at h
    | ok r =>
      obtain ⟨d, e⟩ := r
      rw [hw] at h
      simp only at h
      split at h
      · simp only [Except.ok.injEq, Prod.mk.injEq] at h
        obtain ⟨hd, ho⟩ := h
        rw [← ho] at he
        simp only at he
        rw [hd, he]
      · simp only [Except.ok.injEq, Prod.mk.injEq] at h
        obtain ⟨hd, ho⟩ := h
        rw [← ho] at he
        simp only at he
        rw [hd, he]
  · have hf : w.stat inputs.FilesystemPath = false := by simpa using hs
    simp only [hf, Bool.not_false, if_true, Except.ok.injEq, Prod.mk.injEq] at h
    obtain ⟨_, ho⟩ := h
    rw [← ho] at he
    simp at he

/-- The store and return value of `Space` on an existing path are those of
the walk from the store with the filter set. -/
theorem Space_storeAndError (cp : String → Option (String → Bool)) (rnd : ℚ → ℚ) (w : World)
    (db : DB) (inputs : SpaceInputs) (hs : w.stat inputs.FilesystemPath = true) :
    storeAndError (Space cp rnd w db inputs)
      = Walk (process cp) (w.walkCalls inputs.FilesystemPath) (db.set filterKey inputs.Filter) := by
  unfold Space verify
  simp only [hs, Bool.not_true, Bool.false_eq_true, if_false]
  cases hw : Walk (process cp) (w.walkCalls inputs.FilesystemPath)
      (db.set filterKey inputs.Filter) with
  | error p => rfl
  | ok r =>
    obtain ⟨d, e⟩ := r
    simp only
    split <;> rfl

/-- C8 (amended): the store outlives a call of `Space`. When `Space` has
returned nil on a tree `T1` and left the store `db1`, a second call in the
same process, that is from `db1`, on an existing path with tree `T2` and the
same filter leaves the store and returns the error that one uninterrupted
application of `process` to the entries of `T1` followed by those of `T2`
leaves from the store the first call started with: the second call continues
from the aggregates of the first. -/
theorem Space_continues_previous_store (cp : String → Option (String → Bool)) (rnd : ℚ → ℚ)
    (w1 w2 : World) (in1 in2 : SpaceInputs) (db0 db1 : DB) (o1 : Outcome)
    (h1 : Space cp rnd w1 db0 in1 = Except.ok (db1, o1)) (he : o1.err = none)
    (hf : in2.Filter = in1.Filter) (hs : w2.stat in2.FilesystemPath = true) :
    storeAndError (Space cp rnd w2 db1 in2)
      = Walk (process cp) (w1.walkCalls in1.FilesystemPath ++ w2.walkCalls in2.FilesystemPath)
          (db0.set filterKey in1.Filter) := by
  obtain ⟨_, hw⟩ := Space_ok_walk cp rnd w1 db0 db1 in1 o1 h1 he
  rw [Space_storeAndError cp rnd w2 db1 in2 hs, hf]
  exact Walk_process_resume cp in1.Filter _ _ db0 db1 hw

theorem Space_continues_previous_store_witness :
    storeAndError (Space anchoredLiteral id (worldOf true treeB none)
        ((((DB.empty.set filterKey "").set largeSizeKey "10").set largeFilenameKey "/a/x").set
          totalSizeKey "10")
        { FilesystemPath := "/b", RootFilesystem := "", Filter := "" })
      = Walk (process anchoredLiteral) (treeA ++ treeB) (DB.empty.set filterKey "") :=
  Space_continues_previous_store anchoredLiteral id (worldOf true treeA none)
    (worldOf true treeB none)
    { FilesystemPath := "/a", RootFilesystem := "", Filter := "" }
    { FilesystemPath := "/b", RootFilesystem := "", Filter := "" }
    DB.empty
    ((((DB.empty.set filterKey "").set largeSizeKey "10").set largeFilenameKey "/a/x").set
      totalSizeKey "10")
    { events := [Event.stat "/a", Event.walk "/a", Event.statfs "/",
        views.Print (spaceRows id
          ((((DB.empty.set filterKey "").set largeSizeKey "10").set largeFilenameKey "/a/x").set
            totalSizeKey "10")
          (getDiskUsage id (fun _ => none) "/") (F64.fin 0))],
      err := none }
    rfl rfl rfl rfl

/-- C8 (as stated, refuted): after `Space` on `/a`, which holds `x` of 10
bytes, a second call of `Space` in the same process on `/b`, which holds `y`
of 5 bytes, leaves TOTAL_SIZE 15, LARGE_SIZE 10 and LARGE_FILE_NAME `/a/x`,
where `Space` on `/b` from the empty store leaves 5, 5 and `/b/y`. -/
theorem Space_second_call_differs :
    (match Space anchoredLiteral id (worldOf true treeA none) DB.empty
        { FilesystemPath := "/a", RootFilesystem := "", Filter := "" } with
      | Except.ok (db1, _) =>
        aggregates (Space anchoredLiteral id (worldOf true treeB none) db1
          { FilesystemPath := "/b", RootFilesystem := "", Filter := "" })
      | Except.error _ => none) = some ("15", "10", "/a/x") ∧
    aggregates (Space anchoredLiteral id (worldOf true treeB none) DB.empty
        { FilesystemPath := "/b", RootFilesystem := "", Filter := "" })
      = some ("5", "5", "/b/y") := by
  decide

/-! ## Disk usage and the percentages of the report -/

theorem toUint64_cast (x : Int) :
    ((toUint64 x : Nat) : Int) = x % 18446744073709551616 := by
  unfold toUint64
  exact Int.toNat_of_nonneg (Int.emod_nonneg _ (by decide))

theorem blocks_bytes_cast (b : Nat) (s : Int) :
    (((b * toUint64 s) % 18446744073709551616 : Nat) : Int)
      = ((b : Int) * s) % 18446744073709551616 := by
  push_cast
  rw [toUint64_cast, Int.mul_emod, Int.emod_emod, ← Int.mul_emod]

theorem percent_in_range (rnd : ℚ → ℚ) (hr : IsRounding rnd) (used all : Nat)
    (hall : all ≠ 0) (hle : used ≤ all) :
    F64.inPercentRange
      (F64.mul rnd (F64.div rnd (F64.ofUint64 rnd used) (F64.ofUint64 rnd all)) (F64.fin 100)) := by
  have hu0 : (0 : ℚ) ≤ rnd used := by
    have := hr.mono 0 used (by exact_mod_cast Nat.zero_le used)
    rwa [hr.zero] at this
  have ha1 : (1 : ℚ) ≤ rnd all := by
    have h1 : (1 : ℚ) ≤ (all : ℚ) := by exact_mod_cast Nat.one_le_iff_ne_zero.mpr hall
    have := hr.mono 1 all h1
    rwa [hr.one] at this
  have hua : rnd used ≤ rnd all := hr.mono _ _ (by exact_mod_cast hle)
  have hapos : (0 : ℚ) < rnd all := lt_of_lt_of_le one_pos ha1
  have hne : rnd (all : ℚ) ≠ 0 := ne_of_gt hapos
  have hq0 : (0 : ℚ) ≤ rnd used / rnd all := div_nonneg hu0 (le_of_lt hapos)
  have hq1 : rnd used / rnd all ≤ (1 : ℚ) := (div_le_one hapos).mpr hua
  have hr0 : (0 : ℚ) ≤ rnd (rnd used / rnd all) := by
    have := hr.mono _ _ hq0
    rwa [hr.zero] at this
  have hr1 : rnd (rnd used / rnd all) ≤ (1 : ℚ) := by
    have := hr.mono _ _ hq1
    rwa [hr.one] at this
  have hp0 : (0 : ℚ) ≤ rnd (rnd used / rnd all) * 100 := by positivity
  have hp1 : rnd (rnd used / rnd all) * 100 ≤ (100 : ℚ) := by linarith
  have hf0 : (0 : ℚ) ≤ rnd (rnd (rnd used / rnd all) * 100) := by
    have := hr.mono _ _ hp0
    rwa [hr.zero] at this
  have hf1 : rnd (rnd (rnd used / rnd all) * 100) ≤ (100 : ℚ) := by
    have := hr.mono _ _ hp1
    rwa [hr.hundred] at this
  simp only [F64.ofUint64, F64.div, hne, if_false, F64.mul, F64.inPercentRange]
  exact ⟨hf0, hf1⟩

/-- C9 (amended): when the probe fails `getDiskUsage` returns the all-zero
snapshot; when it succeeds with block count `B`, free-block count `F` and
block size `S` it returns all = B*S, free = F*S and used = all - free, each
modulo 2^64, and, provided all is not 0 and free is at most all, a used
percentage between 0 and 100. -/
theorem getDiskUsage_snapshot (rnd : ℚ → ℚ) (hr : IsRounding rnd)
    (statfs : String → Option Statfs_t) (rootPath : String) :
    (statfs rootPath = none →
      getDiskUsage rnd statfs rootPath = { all := 0, free := 0, used := 0, usedPer := F64.fin 0 }) ∧
    (∀ fs, statfs rootPath = some fs →
      ((getDiskUsage rnd statfs rootPath).all : Int)
        = ((fs.Blocks : Int) * fs.Bsize) % 18446744073709551616 ∧
      ((getDiskUsage rnd statfs rootPath).free : Int)
        = ((fs.Bfree : Int) * fs.Bsize) % 18446744073709551616 ∧
      ((getDiskUsage rnd statfs rootPath).used : Int)
        = (((getDiskUsage rnd statfs rootPath).all : Int) - (getDiskUsage rnd statfs rootPath).free)
            % 18446744073709551616 ∧
      ((getDiskUsage rnd statfs rootPath).all ≠ 0 →
        (getDiskUsage rnd statfs rootPath).free ≤ (getDiskUsage rnd statfs rootPath).all →
        F64.inPercentRange (getDiskUsage rnd statfs rootPath).usedPer)) := by
  constructor
  · intro h
    simp [getDiskUsage, h]
  · intro fs h
    simp only [getDiskUsage, h]
    refine ⟨blocks_bytes_cast _ _, blocks_bytes_cast _ _, ?_, ?_⟩
    · have hf : (fs.Bfree * toUint64 fs.Bsize) % 18446744073709551616 < 18446744073709551616 :=
        Nat.mod_lt _ (by decide)
      omega
    · intro hall hle
      apply percent_in_range rnd hr _ _ hall
      have hf : (fs.Bfree * toUint64 fs.Bsize) % 18446744073709551616 < 18446744073709551616 :=
        Nat.mod_lt _ (by decide)
      omega

theorem getDiskUsage_snapshot_witness :
    ((getDiskUsage id (fun _ => some { Blocks := 4, Bfree := 1, Bsize := 4096 }) "/").all : Int)
      = (4 * 4096) % 18446744073709551616 ∧
    F64.inPercentRange
      (getDiskUsage id (fun _ => some { Blocks := 4, Bfree := 1, Bsize := 4096 }) "/").usedPer :=
  have h := (getDiskUsage_snapshot id ⟨fun _ _ h => h, rfl, rfl, rfl⟩
    (fun _ => some { Blocks := 4, Bfree := 1, Bsize := 4096 }) "/").2
      { Blocks := 4, Bfree := 1, Bsize := 4096 } rfl
  ⟨h.1, h.2.2.2 (by decide) (by decide)⟩

/-- C9 (as stated, refuted): a probe that succeeds with 0 blocks, as on a
pseudo filesystem, gives all = 0 and the percentage 0/0*100, which is
not-a-number and so no value between 0 and 100; a probe that answers more
free blocks than blocks (1 block, 2 free, block size 1) gives used = 2^64 - 1
and a percentage above 100. -/
theorem getDiskUsage_percentage_out_of_range :
    (getDiskUsage id (fun _ => some { Blocks := 0, Bfree := 0, Bsize := 4096 }) "/proc").usedPer
      = F64.nan ∧
    ¬ F64.inPercentRange
      (getDiskUsage id (fun _ => some { Blocks := 0, Bfree := 0, Bsize := 4096 }) "/proc").usedPer ∧
    (getDiskUsage id (fun _ => some { Blocks := 1, Bfree := 2, Bsize := 1 }) "/").used
      = 18446744073709551615 ∧
    ¬ F64.inPercentRange
      (getDiskUsage id (fun _ => some { Blocks := 1, Bfree := 2, Bsize := 1 }) "/").usedPer := by
  have h : (getDiskUsage id (fun _ => some { Blocks := 0, Bfree := 0, Bsize := 4096 })
      "/proc").usedPer = F64.nan := by decide
  refine ⟨h, ?_, by decide, ?_⟩
  · rw [h]
    intro hn
    exact hn
  · have h2 : (getDiskUsage id (fun _ => some { Blocks := 1, Bfree := 2, Bsize := 1 })
        "/").usedPer = F64.fin (18446744073709551615 / 1 * 100) := by
      simp [getDiskUsage, toUint64, F64.mul, F64.div, F64.ofUint64]
    rw [h2]
    simp only [F64.inPercentRange]
    norm_num

/-- C10 (the code on an empty tree without disk data): the denominator is
the walked total when the disk total is 0, which is 45 for a walked total of
45 and 0 for a walked total of 0; with the all-zero snapshot and a tree that
holds no file `Space` divides 0 by 0 and prints not-a-number as the
LARGE_FILE_SIZE percentage. -/
theorem Space_percentage_nan_on_empty_walk :
    spaceDenominator { all := 0, free := 0, used := 0, usedPer := F64.fin 0 } 45 = 45 ∧
    spaceDenominator { all := 0, free := 0, used := 0, usedPer := F64.fin 0 } 0 = 0 ∧
    (Space anchoredLiteral id (worldOf true [dirCall "/a" "a"] none) DB.empty
        { FilesystemPath := "/a", RootFilesystem := "", Filter := "" }).toOption.map Prod.snd
      = some { events := [Event.stat "/a", Event.walk "/a", Event.statfs "/", views.Print
          [ [Cell.text "LARGE_FILE_NAME", Cell.text "", Cell.text "NA"],
            [Cell.text "LARGE_FILE_SIZE", Cell.byteSize 0, Cell.float F64.nan],
            [Cell.text "DISK_TOTAL_SIZE", Cell.byteSize 0, Cell.text "NA"],
            [Cell.text "DISK_USED_PERCENTAGE", Cell.text "--", Cell.float (F64.fin 0)],
            [Cell.text "PROCESSING_TIME", Cell.minutes (F64.fin 0), Cell.text "NA"] ]],
               err := none } := by
  decide

end Analyser

